import Mathlib

/-!
Shallow embedding of the PyPiScraper crawl engine (src/app/scrapper.py,
src/app/github_api.py, src/app/database.py, src/app/model.py) together with
theorems settling the frozen claims about its specification.

Python strings are modelled as `List Char` where character-level operations
matter (`str.strip`, `str.split`) and as `String` elsewhere.  Machine-level
exceptions that the Python code can raise (attribute access on `None` or on a
value lacking the attribute) are modelled with `Except PyErr`.
-/

set_option maxHeartbeats 1000000

namespace PyPi

/-- Runtime errors of the embedded Python fragments.  `attributeError` models
Python's `AttributeError`, raised by `x.attr` when `x` is `None` or otherwise
lacks the attribute. -/
inductive PyErr where
  | attributeError
  deriving Repr, DecidableEq

/-! ### Python string primitives on `List Char`

`pstrip c l` models `l.strip(c)` for a one-character strip set: remove every
leading and trailing occurrence of `c`.  `psplit c l` models `l.split(c)` for a
one-character separator: split at every occurrence, keeping empty pieces, with
`"".split(c) == [""]`.  `takeUntilSub sep l` models `l.split(sep)[0]` for a
multi-character separator: the prefix of `l` before the first occurrence of
`sep`, or all of `l` when `sep` does not occur. -/

/-- Remove every leading occurrence of `c` (left half of `str.strip(c)`). -/
def lstripC (c : Char) (l : List Char) : List Char :=
  l.dropWhile (fun x => x == c)

/-- Remove every trailing occurrence of `c` (right half of `str.strip(c)`). -/
def rstripC (c : Char) (l : List Char) : List Char :=
  (l.reverse.dropWhile (fun x => x == c)).reverse

/-- Python `l.strip(c)` for a single strip character `c`. -/
def pstrip (c : Char) (l : List Char) : List Char :=
  rstripC c (lstripC c l)

/-- Helper for `psplit`: returns the first piece and the remaining pieces. -/
def psplitAux (c : Char) : List Char → List Char × List (List Char)
  | [] => ([], [])
  | x :: xs =>
    let r := psplitAux c xs
    if x = c then ([], r.1 :: r.2) else (x :: r.1, r.2)

/-- Python `l.split(c)` for a one-character separator `c`. -/
def psplit (c : Char) (l : List Char) : List (List Char) :=
  (psplitAux c l).1 :: (psplitAux c l).2

/-- Python `l.split(sep)[0]` for a non-empty separator `sep`: the prefix of `l`
strictly before the first occurrence of `sep` (all of `l` when absent). -/
def takeUntilSub (sep : List Char) : List Char → List Char
  | [] => []
  | x :: xs => if sep.isPrefixOf (x :: xs) then [] else x :: takeUntilSub sep xs

/-- Drop everything up to and including the first occurrence of `sep`;
`none` when `sep` does not occur. -/
def dropThroughSub (sep : List Char) : List Char → Option (List Char)
  | [] => none
  | x :: xs =>
    if sep.isPrefixOf (x :: xs) then some ((x :: xs).drop sep.length)
    else dropThroughSub sep xs

/-- The non-empty `/`-separated segments of a path, in order (the spec's
"non-empty path segments"). -/
def nonemptySegs (path : List Char) : List (List Char) :=
  (psplit '/' path).filter (fun s => !s.isEmpty)

/-! ### GitHubAPI.extract_owner_repo (src/app/github_api.py lines 97-107)

```python
parsed_url = urllib3.util.parse_url(github_url)
path_parts = parsed_url.path.strip("/").split("/")
if len(path_parts) >= 2:
    owner = path_parts[0]
    repo = path_parts[1].split(".git")[0]
    return owner, repo
return None, None
```
-/

/-- The separator `".git"` used by `extract_owner_repo`. -/
def gitSep : List Char := '.' :: 'g' :: 'i' :: 't' :: []

/-- Path-level body of `GitHubAPI.extract_owner_repo`, taking the URL path as
produced by `urllib3.util.parse_url(...).path`.  Returns `none` for the
Python `(None, None)` result. -/
def extract_owner_repo_path (path : List Char) : Option (List Char × List Char) :=
  let parts := psplit '/' (pstrip '/' path)
  match parts with
  | p0 :: p1 :: _ => some (p0, takeUntilSub gitSep p1)
  | _ => none

/-- Model of `urllib3.util.parse_url(url).path` for http(s)-style URLs: the
substring from the first `/` after the `scheme://authority` part (or from the
first `/` when no `://` occurs), cut before any query (`?`) or fragment
(`#`). -/
def parseUrlPath (url : List Char) : List Char :=
  let rest := (dropThroughSub ('/' :: '/' :: []) url).getD url
  (rest.dropWhile (fun ch => ch ≠ '/')).takeWhile (fun ch => ch ≠ '?' ∧ ch ≠ '#')

/-- `GitHubAPI.extract_owner_repo` on a whole URL (`String` interface). -/
def extract_owner_repo (url : String) : Option (String × String) :=
  (extract_owner_repo_path (parseUrlPath url.data)).map
    (fun pr => (String.mk pr.1, String.mk pr.2))

/-- Spec-side reading of the claim for `extract_owner_repo` ("the first two
non-empty path segments with a trailing `.git` stripped from the repo
segment; `None` whenever the path has fewer than two such segments"),
written from the spec's words, to be compared with the source embedding. -/
def spec_owner_repo_path (path : List Char) : Option (List Char × List Char) :=
  match nonemptySegs path with
  | o :: r :: _ =>
    some (o, if gitSep.isSuffixOf r then r.take (r.length - gitSep.length) else r)
  | _ => none

/-- Spec-side reading of the claim on a whole URL. -/
def spec_owner_repo (url : String) : Option (String × String) :=
  (spec_owner_repo_path (parseUrlPath url.data)).map
    (fun pr => (String.mk pr.1, String.mk pr.2))

/-- `r` is the prefix of `s` strictly before the first occurrence of `sep`
(`r = s` when `sep` does not occur in `s`). -/
def FirstCutAt (sep s r : List Char) : Prop :=
  r <+: s ∧ (∀ i < r.length, ¬ sep <+: s.drop i) ∧
    (sep <+: s.drop r.length ∨ r = s)

/-! ### Retrying fetch loops

`PyPiScrapper.fetch_page` (src/app/scrapper.py lines 61-96) and
`GitHubAPI.fetch_github_api` (src/app/github_api.py lines 42-95) both run
`for attempt in range(retries)` around `session.get(...)` +
`raise_for_status()`.  Each iteration's outcome is one of: success with a
body, an `HTTPError` carrying a status code, a `Timeout`, or another
`RequestException` (transport failure).  The oracle `Nat → AttemptOutcome`
gives the outcome of attempt `i` (0-based). -/

/-- Outcome of one underlying HTTP attempt (`session.get` + `raise_for_status`). -/
inductive AttemptOutcome where
  | success (body : String)
  | httpError (status : Nat)
  | timeout
  | transportError
  deriving Repr, DecidableEq

/-- Result of a whole retrying fetch: final return value, number of attempts
actually made, number of fixed 60s rate-limit cooldown sleeps, and number of
exponential-backoff sleeps. -/
structure FetchRun where
  result : Option String
  attempts : Nat
  cooldowns : Nat
  backoffs : Nat
  deriving Repr, DecidableEq

/-- Loop body of `PyPiScrapper.fetch_page`: `HTTPError` and generic
`RequestException` `break` out of the loop immediately (no backoff sleep, no
status-code distinction); only `Timeout` falls through to the backoff sleep
and the next attempt. -/
def fetchPageGo (oracle : Nat → AttemptOutcome) :
    Nat → Nat → Nat → Nat → FetchRun
  | 0, attempt, cool, back => ⟨none, attempt, cool, back⟩
  | remaining + 1, attempt, cool, back =>
    match oracle attempt with
    | .success b => ⟨some b, attempt + 1, cool, back⟩
    | .httpError _ => ⟨none, attempt + 1, cool, back⟩
    | .transportError => ⟨none, attempt + 1, cool, back⟩
    | .timeout => fetchPageGo oracle remaining (attempt + 1) cool (back + 1)

/-- `PyPiScrapper.fetch_page` retry loop over an attempt-outcome oracle. -/
def fetch_page_run (oracle : Nat → AttemptOutcome) (retries : Nat) : FetchRun :=
  fetchPageGo oracle retries 0 0 0

/-- Loop body of `GitHubAPI.fetch_github_api`: a 404 or a generic
`RequestException` breaks immediately; a 403 sleeps the fixed 60s cooldown and
then also the backoff sleep before the next attempt; any other HTTP status and
`Timeout` fall through to the backoff sleep and the next attempt. -/
def fetchGithubGo (oracle : Nat → AttemptOutcome) :
    Nat → Nat → Nat → Nat → FetchRun
  | 0, attempt, cool, back => ⟨none, attempt, cool, back⟩
  | remaining + 1, attempt, cool, back =>
    match oracle attempt with
    | .success b => ⟨some b, attempt + 1, cool, back⟩
    | .httpError status =>
      if status = 404 then ⟨none, attempt + 1, cool, back⟩
      else if status = 403 then
        fetchGithubGo oracle remaining (attempt + 1) (cool + 1) (back + 1)
      else fetchGithubGo oracle remaining (attempt + 1) cool (back + 1)
    | .transportError => ⟨none, attempt + 1, cool, back⟩
    | .timeout => fetchGithubGo oracle remaining (attempt + 1) cool (back + 1)

/-- `GitHubAPI.fetch_github_api` retry loop over an attempt-outcome oracle. -/
def fetch_github_api_run (oracle : Nat → AttemptOutcome) (retries : Nat) : FetchRun :=
  fetchGithubGo oracle retries 0 0 0

/-! ### Rate limiter and response cache

`fetch_page` is decorated with `@sleep_and_retry` and
`@limits(calls=15, period=60)`: every call first passes through the rate
limiter, and only the body of the function (via `CachedSession.get`) consults
the response cache.  The `ratelimit` decorator keeps a call count and a window
start; `sleep_and_retry` sleeps the remaining window when the quota is
exhausted and then re-enters a fresh window. -/

/-- State of one `ratelimit` window: calls made so far and window start time. -/
structure RateState where
  count : Nat
  windowStart : Nat
  deriving Repr, DecidableEq

/-- Combined semantics of `@sleep_and_retry` + `@limits(calls, period)` for one
call at time `now`: returns the new window state and the blocking delay
suffered (0 when the call was admitted at once). -/
def rateAcquire (calls period now : Nat) (rs : RateState) : RateState × Nat :=
  let rs := if period ≤ now - rs.windowStart then ⟨0, now⟩ else rs
  if calls < rs.count + 1 then
    (⟨1, rs.windowStart + period⟩, rs.windowStart + period - now)
  else (⟨rs.count + 1, rs.windowStart⟩, 0)

/-- A `requests_cache` entry: response body and absolute expiry time.  Only
200 responses are cached (`allowable_codes=[200]`). -/
structure CacheEntry where
  body : String
  expiresAt : Nat
  deriving Repr, DecidableEq

/-- Mutable state seen by one rate-limited cached fetch call. -/
structure FetchSt where
  now : Nat
  rate : RateState
  cache : List (String × CacheEntry)
  deriving Repr, DecidableEq

/-- Trace of one rate-limited cached fetch call. -/
structure CachedFetchRes where
  result : Option String
  state : FetchSt
  rateDelay : Nat
  networkCalls : Nat
  deriving Repr, DecidableEq

/-- Look up a live cache entry (`requests_cache` treats expired entries as
absent). -/
def cacheLookup (cache : List (String × CacheEntry)) (now : Nat) (url : String) :
    Option String :=
  match cache.find? (fun e => e.1 = url) with
  | some e => if now < e.2.expiresAt then some e.2.body else none
  | none => none

/-- Retry loop of `fetch_page` with the cache in the loop: each iteration is
`session.get` which first consults the cache and otherwise goes to the
network (attempt outcomes from `net`).  A fresh 200 body is inserted into the
cache with expiry `now + cacheExpiry`. -/
def cachedFetchGo (net : Nat → AttemptOutcome) (url : String) (cacheExpiry : Nat) :
    Nat → Nat → FetchSt → Nat → (Option String × FetchSt × Nat)
  | 0, _, st, netCalls => (none, st, netCalls)
  | remaining + 1, attempt, st, netCalls =>
    match cacheLookup st.cache st.now url with
    | some body => (some body, st, netCalls)
    | none =>
      match net attempt with
      | .success b =>
        (some b,
          { st with cache := (url, ⟨b, st.now + cacheExpiry⟩) :: st.cache },
          netCalls + 1)
      | .httpError _ => (none, st, netCalls + 1)
      | .transportError => (none, st, netCalls + 1)
      | .timeout => cachedFetchGo net url cacheExpiry remaining (attempt + 1) st (netCalls + 1)

/-- Full `PyPiScrapper.fetch_page`: rate limiter first (decorators wrap the
whole function), then the retry loop with cache consultation inside
`session.get`.  `calls`/`period` are the `@limits` configuration. -/
def fetch_page_cached (calls period cacheExpiry : Nat) (net : Nat → AttemptOutcome)
    (url : String) (retries : Nat) (st : FetchSt) : CachedFetchRes :=
  let acq := rateAcquire calls period st.now st.rate
  let st1 : FetchSt := { st with rate := acq.1 }
  let r := cachedFetchGo net url cacheExpiry retries 0 st1 0
  ⟨r.1, r.2.1, acq.2, r.2.2⟩

/-! ### Detail-page extraction (`PyPiScrapper.scrape_project_page`, lines 118-219)

A BeautifulSoup document is abstracted to the pieces the code observes: the
three `soup.find(...)` targets (each possibly absent), the hrefs of
`a.vertical-tabs__tabs[href]`, and the hrefs of all `a[href]` in document
order.  `tag.find("a")` is abstracted to the text of the first nested `<a>`
(or `none` when absent), which is all the code uses of it. -/

/-- An HTML tag as observed by the code: its `.text` and its `.find("a")`
result (abstracted to that tag's text). -/
structure HtmlTag where
  text : String
  firstA : Option String
  deriving Repr, DecidableEq

/-- A detail-page document as observed by `scrape_project_page`. -/
structure DetailDoc where
  titleTag : Option HtmlTag
  descTag : Option HtmlTag
  maintainerTag : Option HtmlTag
  verticalTabLinks : List String
  allLinks : List String
  deriving Repr, DecidableEq

/-- JSON object returned by the GitHub repos endpoint, as read through
`repo_data.get(...)`: every field may be absent. -/
structure RepoData where
  name : Option String := none
  description : Option String := none
  html_url : Option String := none
  stargazers_count : Option Int := none
  forks_count : Option Int := none
  open_issues_count : Option Int := none
  language : Option String := none
  updated_at : Option String := none
  created_at : Option String := none
  watchers_count : Option Int := none
  deriving Repr, DecidableEq

/-- The `Project` dataclass of src/app/model.py. -/
structure Project where
  project_title : String
  project_description : String
  project_maintainer : String
  project_maintainer_email : Option String := none
  project_github_repo : Option String := none
  repo_name : Option String := none
  repo_description : Option String := none
  repo_html_url : Option String := none
  repo_stargazers_count : Int := 0
  repo_forks_count : Int := 0
  repo_open_issues_count : Int := 0
  repo_language : Option String := none
  repo_updated_at : Option String := none
  repo_created_at : Option String := none
  repo_watchers_count : Int := 0
  deriving Repr, DecidableEq

/-- Python `s.lower()`. -/
def pyLower (s : String) : String :=
  String.mk (s.data.map Char.toLower)

/-- ASCII whitespace test for the `str.strip()` model. -/
def isWs (c : Char) : Bool :=
  c == ' ' || c == '\t' || c == '\n' || c == '\r'

/-- Python `s.strip()` (whitespace strip, ASCII whitespace modelled). -/
def pyStripWs (s : String) : String :=
  String.mk (((s.data.dropWhile isWs).reverse.dropWhile isWs).reverse)

/-- Python `needle in s` (substring containment). -/
def strContains (needle s : String) : Bool :=
  (dropThroughSub needle.data s.data).isSome || needle.data.isEmpty

/-- The `mailto:` scan (lines 149-154): first href starting with `mailto:`,
with the prefix removed. -/
def findMailto (links : List String) : Option String :=
  match links.find? (fun l => "mailto:".isPrefixOf l) with
  | some l => some (l.drop 7)
  | none => none

/-- The repository-link scan (lines 156-169): first lowercased href containing
`github.com` among the vertical-tab links, then among all links. -/
def findGithubRepo (doc : DetailDoc) : Option String :=
  match doc.verticalTabLinks.find? (fun l => strContains "github.com" (pyLower l)) with
  | some l => some (pyLower l)
  | none =>
    match doc.allLinks.find? (fun l => strContains "github.com" (pyLower l)) with
    | some l => some (pyLower l)
    | none => none

/-- Lines 132-139.  The fallback condition tests `project_title_tag` (not the
description tag), so with a title present and the description tag absent the
code evaluates `None.text` and raises `AttributeError`. -/
def descriptionField (doc : DetailDoc) : Except PyErr String :=
  match doc.titleTag with
  | some _ =>
    match doc.descTag with
    | some t => .ok (pyStripWs t.text)
    | none => .error .attributeError
  | none => .ok "No description available"

/-- Lines 141-147.  The guard is
`if project_maintainer_tag and project_title_tag.find("a")`, so with a
maintainer tag present it dereferences the *title* tag (raising when the
title is absent), and the body calls `.find("a").text` on the maintainer tag
(raising when the maintainer tag holds no `<a>`). -/
def maintainerField (doc : DetailDoc) : Except PyErr String :=
  match doc.maintainerTag with
  | none => .ok "Unknown"
  | some mt =>
    match doc.titleTag with
    | none => .error .attributeError
    | some tt =>
      match tt.firstA with
      | none => .ok "Unknown"
      | some _ =>
        match mt.firstA with
        | none => .error .attributeError
        | some a => .ok (pyStripWs a)

/-- The enrichment fields of a `Project`, as a tuple. -/
def enrichOf (p : Project) :
    Option String × Option String × Option String × Int × Int × Int ×
      Option String × Option String × Option String × Int :=
  (p.repo_name, p.repo_description, p.repo_html_url, p.repo_stargazers_count,
    p.repo_forks_count, p.repo_open_issues_count, p.repo_language,
    p.repo_updated_at, p.repo_created_at, p.repo_watchers_count)

/-- The all-unset/zero enrichment defaults (lines 171-180). -/
def defaultEnrich :
    Option String × Option String × Option String × Int × Int × Int ×
      Option String × Option String × Option String × Int :=
  (none, none, none, 0, 0, 0, none, none, none, 0)

/-- The enrichment fields produced from one API response `d`
(lines 185-194, `repo_data.get(key)` / `repo_data.get(key, 0)`). -/
def enrichFromData (d : RepoData) :
    Option String × Option String × Option String × Int × Int × Int ×
      Option String × Option String × Option String × Int :=
  (d.name, d.description, d.html_url, d.stargazers_count.getD 0,
    d.forks_count.getD 0, d.open_issues_count.getD 0, d.language,
    d.updated_at, d.created_at, d.watchers_count.getD 0)

/-- Lines 127-219 after a successful fetch: build the `Project` from the
document, calling the enricher (`github`) when a repository link was found.
Returns the project together with the number of enrichment calls made (0 or
1).  Raises exactly where the Python raises. -/
def extractProject (doc : DetailDoc) (github : String → Option RepoData) :
    Except PyErr (Project × Nat) := do
  let project_title := match doc.titleTag with
    | some t => pyStripWs t.text
    | none => "N/A"
  let project_description ← descriptionField doc
  let project_maintainer ← maintainerField doc
  let project_maintainer_email := findMailto doc.allLinks
  let project_github_repo := findGithubRepo doc
  let repo_data := match project_github_repo with
    | some u => github u
    | none => none
  let enrichCalls : Nat := match project_github_repo with
    | some _ => 1
    | none => 0
  let e := match repo_data with
    | some d => enrichFromData d
    | none => defaultEnrich
  return ({ project_title, project_description, project_maintainer,
            project_maintainer_email, project_github_repo,
            repo_name := e.1, repo_description := e.2.1, repo_html_url := e.2.2.1,
            repo_stargazers_count := e.2.2.2.1, repo_forks_count := e.2.2.2.2.1,
            repo_open_issues_count := e.2.2.2.2.2.1, repo_language := e.2.2.2.2.2.2.1,
            repo_updated_at := e.2.2.2.2.2.2.2.1,
            repo_created_at := e.2.2.2.2.2.2.2.2.1,
            repo_watchers_count := e.2.2.2.2.2.2.2.2.2 }, enrichCalls)

/-! ### GitHubAPI.get_repo_details (lines 109-135) -/

/-- Possible parses of the body returned by `fetch_github_api`: a JSON object
with `message == "Not Found"`, a body that fails to parse as JSON, or a valid
repository object. -/
inductive ApiContent where
  | notFound
  | invalidJson
  | repoJson (d : RepoData)
  deriving Repr, DecidableEq

/-- `get_repo_details`: extract owner/repo (unenrichable when either is `None`
or empty), build the endpoint URL, fetch (`api` abstracts `fetch_github_api`,
`none` = all retries failed), and parse. -/
def get_repo_details (api : String → Option ApiContent) (github_url : String) :
    Option RepoData :=
  match extract_owner_repo github_url with
  | none => none
  | some (owner, repo) =>
    if owner.isEmpty || repo.isEmpty then none
    else
      match api ("https://api.github.com/repos/" ++ owner ++ "/" ++ repo) with
      | none => none
      | some .notFound => none
      | some .invalidJson => none
      | some (.repoJson d) => some d

/-! ### Database sink (src/app/database.py lines 33-51)

`insert_project` calls `execute()` on the external client, returns `None`
when the response's `error` is truthy or when any exception was raised, and
otherwise returns `res.data` — an external value of unknown shape.  The one
observation the scrapper then makes of the returned value is `res.error`
(src/app/scrapper.py line 244); `SinkData.errorAttr` records whether that
attribute exists on the returned data and, if so, whether it is truthy. -/

/-- The `res.data` payload of the external client's response, abstracted to
the single observation the caller makes of it. -/
structure SinkData where
  errorAttr : Option Bool
  deriving Repr, DecidableEq

/-- Outcome of one `supabase.table(...).insert(...).execute()` call:
a response with an `error` of the given truthiness and a `data` payload,
or an exception (any raise inside the `try`). -/
inductive DbExec where
  | resp (errorTruthy : Bool) (data : SinkData)
  | raises
  deriving Repr, DecidableEq

/-- `SupabaseDatabase.insert_project`: `None` on a truthy response error or on
an exception, `res.data` otherwise. -/
def insert_project : DbExec → Option SinkData
  | .resp true _ => none
  | .resp false d => some d
  | .raises => none

/-- The scrapper's `res.error` on the value returned by `insert_project`
(line 244): `None` has no `error` attribute, and the data payload only has
one if the external value happens to expose it. -/
def resErrorAttr : Option SinkData → Except PyErr Bool
  | none => .error .attributeError
  | some d =>
    match d.errorAttr with
    | none => .error .attributeError
    | some b => .ok b

/-! ### Crawl engine (`PyPiScrapper.scrape_all_projects`, lines 221-268)

The engine is modelled as a fuel-indexed interpreter over oracles for the
listing fetch, the detail fetch, the enricher and the sink.  The state also
accumulates the trace the claims talk about (pages fetched, items for which a
detail fetch was attempted, call counters).  `save_progress` is modelled as
always succeeding here (its failure behaviour has its own file-system model
below); the saved checkpoint's visited list stands for the Python set
`list(self.visited_projects)`, whose iteration order is not modelled. -/

/-- The checkpoint object serialized by `save_progress` / read by
`load_progress`. -/
structure Checkpoint where
  visited_projects : List String
  last_page : Nat
  deriving Repr, DecidableEq

/-- External behaviour oracles for one engine run.  `listing page = none`
models a failed listing fetch (which `scrape_search_page` turns into `[]`),
`detail url = none` a failed detail fetch; `sink` gives the outcome of the
`i`-th `execute()` call. -/
structure Oracles where
  listing : Nat → Option (List String)
  detail : String → Option DetailDoc
  github : String → Option RepoData
  sink : Nat → DbExec

/-- Engine state plus run trace. -/
structure EngSt where
  visited : List String
  last_page : Nat
  saved : Option Checkpoint
  detailFetches : Nat
  enrichCalls : Nat
  sinkCalls : Nat
  pagesFetched : List Nat
  processed : List String
  deriving Repr, DecidableEq

/-- How a run ended: listing exhaustion (the only intended exit), fuel
exhaustion of the model, or an uncaught Python exception. -/
inductive RunOutcome where
  | completed
  | fuelOut
  | crashed (e : PyErr)
  deriving Repr, DecidableEq

/-- `scrape_search_page` (lines 98-116): a failed fetch and a card-less page
both yield `[]`. -/
def scrape_search_page (o : Oracles) (page : Nat) : List String :=
  (o.listing page).getD []

/-- One iteration of the inner `for project in projects` loop
(lines 234-257): skip visited items; count a detail fetch otherwise; on
extracted data call the sink, then evaluate `res.error` (which can raise),
and only then add the item to `visited`. -/
def processItem (o : Oracles) (st : EngSt) (item : String) : EngSt × Option PyErr :=
  if item ∈ st.visited then (st, none)
  else
    let st1 := { st with detailFetches := st.detailFetches + 1,
                         processed := st.processed ++ [item] }
    match o.detail item with
    | none => (st1, none)
    | some doc =>
      match extractProject doc o.github with
      | .error e => (st1, some e)
      | .ok pr =>
        let st2 := { st1 with enrichCalls := st1.enrichCalls + pr.2 }
        let res := insert_project (o.sink st2.sinkCalls)
        let st3 := { st2 with sinkCalls := st2.sinkCalls + 1 }
        match resErrorAttr res with
        | .error e => (st3, some e)
        | .ok _ => ({ st3 with visited := st3.visited ++ [item] }, none)

/-- The inner loop over one listing page's items, stopping at the first
uncaught exception. -/
def runItems (o : Oracles) : List String → EngSt → EngSt × Option PyErr
  | [], st => (st, none)
  | item :: rest, st =>
    match processItem o st item with
    | (st1, some e) => (st1, some e)
    | (st1, none) => runItems o rest st1

/-- The outer `while True` loop (lines 224-264), fuel-indexed: fetch the
listing, stop on an empty result, otherwise process the items, set
`last_page := page`, save progress, and advance to `page + 1`. -/
def runPages (o : Oracles) : Nat → Nat → EngSt → EngSt × RunOutcome
  | 0, _, st => (st, .fuelOut)
  | fuel + 1, page, st =>
    let st1 := { st with pagesFetched := st.pagesFetched ++ [page] }
    let projects := scrape_search_page o page
    if projects.isEmpty then (st1, .completed)
    else
      match runItems o projects st1 with
      | (st2, some e) => (st2, .crashed e)
      | (st2, none) =>
        let st3 := { st2 with last_page := page }
        let st4 := { st3 with saved := some ⟨st3.visited, st3.last_page⟩ }
        runPages o fuel (page + 1) st4

/-- The progress file as found at startup. -/
inductive ProgressFile where
  | missing
  | corrupt
  | good (c : Checkpoint)
  deriving Repr, DecidableEq

/-- `load_progress` (lines 270-287): a missing or unparsable file starts
fresh (`visited = {}`, `last_page = 1`). -/
def load_progress : ProgressFile → List String × Nat
  | .good c => (c.visited_projects, c.last_page)
  | _ => ([], 1)

/-- Engine state right after `__init__` ran `load_progress`. -/
def initState (pf : ProgressFile) : EngSt :=
  let lp := load_progress pf
  { visited := lp.1, last_page := lp.2, saved := none, detailFetches := 0,
    enrichCalls := 0, sinkCalls := 0, pagesFetched := [], processed := [] }

/-- `scrape_all_projects` started from a loaded progress file: the first
listing page fetched is `self.last_page` (line 223). -/
def scrape_all_projects (o : Oracles) (fuel : Nat) (pf : ProgressFile) :
    EngSt × RunOutcome :=
  let st := initState pf
  runPages o fuel st.last_page st

/-! ### Checkpoint persistence (`save_progress`, lines 289-305)

File-system model: the canonical progress file and the temporary file, each
either absent, holding a complete serialized checkpoint, or holding a
truncated write.  `os.replace` is an atomic rename.  The failure oracle says
whether the `json.dump` raises midway or the `os.replace` raises; in either
case the `except` branch removes the temporary file and the function returns
normally. -/

/-- Contents of a file in the checkpoint file-system model. -/
inductive FileData where
  | complete (c : Checkpoint)
  | truncated
  deriving Repr, DecidableEq

/-- The two files `save_progress` touches. -/
structure FsState where
  canonical : Option FileData
  temp : Option FileData
  deriving Repr, DecidableEq

/-- Which step of `save_progress` fails, if any. -/
inductive SaveOutcome where
  | ok
  | writeFails
  | replaceFails
  deriving Repr, DecidableEq

/-- `save_progress` over the file-system model.  The returned `Except` is the
function's visible control flow: every failure is caught inside, so it always
returns normally and the crawl continues. -/
def save_progress_fs (c : Checkpoint) (fs : FsState) (o : SaveOutcome) :
    FsState × Except PyErr Unit :=
  match o with
  | .ok =>
    let fs1 := { fs with temp := some (.complete c) }
    ({ fs1 with canonical := some (.complete c), temp := none }, .ok ())
  | .writeFails =>
    let fs1 := { fs with temp := some .truncated }
    ({ fs1 with temp := none }, .ok ())
  | .replaceFails =>
    let fs1 := { fs with temp := some (.complete c) }
    ({ fs1 with temp := none }, .ok ())

/-! ### Concrete scenarios used by the closed theorems -/

/-- Detail document of the end-to-end scenario's item `a`: title `a`, a
summary, no maintainer markup, and the repository link
`https://github.com/x/a` among the vertical-tab links. -/
def docA : DetailDoc :=
  { titleTag := some ⟨"a", none⟩, descTag := some ⟨"A summary", none⟩,
    maintainerTag := none, verticalTabLinks := ["https://github.com/x/a"],
    allLinks := [] }

/-- Detail document of the scenario's item `b`: title and summary, no
maintainer markup, no links at all. -/
def docB : DetailDoc :=
  { titleTag := some ⟨"b", none⟩, descTag := some ⟨"B summary", none⟩,
    maintainerTag := none, verticalTabLinks := [], allLinks := [] }

/-- The `Project` that `scrape_project_page` builds from `docB` with no
enrichment data available. -/
def projB : Project :=
  { project_title := "b", project_description := "B summary",
    project_maintainer := "Unknown" }

/-- A detail document whose title is present but whose description element is
absent: the description fallback (line 137) tests the title tag, so the code
evaluates `None.text` here. -/
def docMissingDesc : DetailDoc :=
  { titleTag := some ⟨"t", none⟩, descTag := none, maintainerTag := none,
    verticalTabLinks := [], allLinks := [] }

/-- Oracles of the spec's end-to-end scenario: listing page 1 yields
`/project/a/` and `/project/b/`, page 2 yields no links; the enricher knows
`x/a` with 42 stars; every sink call returns a response whose data payload
exposes a falsy `error` attribute (the generous reading of the external
client, under which the `res.error` access in the scrapper does not raise). -/
def c2Oracles : Oracles :=
  { listing := fun p => if p = 1 then some ["/project/a/", "/project/b/"] else some [],
    detail := fun u =>
      if u = "/project/a/" then some docA
      else if u = "/project/b/" then some docB
      else none,
    github := fun u =>
      if u = "https://github.com/x/a" then some { stargazers_count := some 42 }
      else none,
    sink := fun _ => .resp false ⟨some false⟩ }

/-- A run in which the single item's sink call fails: the insert response
reports a truthy error, so `insert_project` returns `None`. -/
def sinkFailOracles : Oracles :=
  { listing := fun p => if p = 1 then some ["/project/c/"] else some [],
    detail := fun u => if u = "/project/c/" then some docB else none,
    github := fun _ => none,
    sink := fun _ => .resp true ⟨some false⟩ }

/-- Oracles for the resume counterexample: every listing page is empty. -/
def emptyListingOracles : Oracles :=
  { listing := fun _ => some [], detail := fun _ => none,
    github := fun _ => none, sink := fun _ => .raises }

/-- Attempt oracle used by witnesses: a timeout followed by successes. -/
def wOracle : Nat → AttemptOutcome :=
  fun i => if i = 0 then .timeout else .success "ok"

/-! ## Theorems -/

/-- C1: code bug.  The claim (and the spec's intent, visible in the code's
own log-and-continue branches at lines 244-253) is that a sink failure is
only logged and the item is still added to `visited`.  In the code,
`insert_project` returns `None` on a failed insert, and the scrapper then
evaluates `res.error` on that `None` (line 244), raising `AttributeError`,
which nothing in `scrape_all_projects` catches: the crawl aborts and the item
is never added to the visited set.  Evaluated here on a one-item run whose
sink call fails. -/
theorem pypi_c1_sink_failure_aborts_crawl :
    (scrape_all_projects sinkFailOracles 2 .missing).2
        = .crashed .attributeError ∧
    (scrape_all_projects sinkFailOracles 2 .missing).1.sinkCalls = 1 ∧
    "/project/c/" ∉ (scrape_all_projects sinkFailOracles 2 .missing).1.visited ∧
    (scrape_all_projects sinkFailOracles 2 .missing).1.saved = none := by
  refine ⟨rfl, rfl, ?_, rfl⟩
  show "/project/c/" ∉ ([] : List String)
  simp

/-- C2: counterexample.  On the spec's end-to-end scenario (with the sink's
returned value generously assumed to expose a falsy `error` attribute, so the
run does not abort), the persisted checkpoint is
`{visited: [/project/a/, /project/b/], last_page: 1}`, not `last_page: 2` as
claimed: `last_page` is set to the page just processed (line 259) and the
empty page 2 breaks the loop before any further save. -/
theorem pypi_c2_checkpoint_counterexample :
    (scrape_all_projects c2Oracles 2 .missing).1.saved
        = some ⟨["/project/a/", "/project/b/"], 1⟩ ∧
    (scrape_all_projects c2Oracles 2 .missing).1.saved
        ≠ some ⟨["/project/a/", "/project/b/"], 2⟩ := by
  refine ⟨rfl, ?_⟩
  intro h
  rw [show (scrape_all_projects c2Oracles 2 .missing).1.saved
      = some ⟨["/project/a/", "/project/b/"], 1⟩ from rfl] at h
  simp at h

/-- C2: the amended end-to-end scenario, proved by evaluation: exactly 2
detail fetches, exactly 1 enrichment call, 2 sink calls, termination by
listing exhaustion without error, and a persisted checkpoint with visited
`{/project/a/, /project/b/}` and `last_page = 1` (the last page that yielded
links), all under the assumption baked into `c2Oracles` that each sink call's
returned value exposes a falsy `error` attribute. -/
theorem pypi_c2_scenario_amended :
    scrape_all_projects c2Oracles 2 .missing =
      ({ visited := ["/project/a/", "/project/b/"], last_page := 1,
         saved := some ⟨["/project/a/", "/project/b/"], 1⟩,
         detailFetches := 2, enrichCalls := 1, sinkCalls := 2,
         pagesFetched := [1, 2], processed := ["/project/a/", "/project/b/"] },
        .completed) := rfl

/-- C3: counterexample.  Resuming from a checkpoint with `last_page = 5`, the
first listing page fetched is page 5 itself (`page = self.last_page`,
line 223), not `last_page + 1 = 6` as the claim's resume-at-`last_page + 1`
wording requires. -/
theorem pypi_c3_resume_page_counterexample :
    (scrape_all_projects emptyListingOracles 1
        (.good ⟨["/project/z/"], 5⟩)).1.pagesFetched = [5] ∧
    ([5] : List Nat) ≠ [6] := ⟨rfl, by simp⟩

/-- C4: code bug.  The claim (and the sentinel strings in the code show the
intent) is that extraction never raises on a missing subtree.  But the
description fallback (line 137) tests `project_title_tag` instead of the
description tag, so a document with a title and no description element
evaluates `None.text` and raises `AttributeError`.  The sub-claim that a
missing maintainer yields `"Unknown"` does hold, shown on `docB`. -/
theorem pypi_c4_missing_description_raises :
    extractProject docMissingDesc (fun _ => none) = .error .attributeError ∧
    extractProject docB (fun _ => none) = .ok (projB, 0) ∧
    projB.project_maintainer = "Unknown" := ⟨rfl, rfl, rfl⟩

/-- C5: counterexample.  In the primary-site path (`fetch_page`), every
`HTTPError` — including a 403 — hits the generic `except HTTPError: break`
(lines 78-80): with 3 retries configured and every attempt answering 403, the
fetch makes exactly 1 attempt, sleeps no cooldown, and returns `None`,
contradicting the claimed cooldown-then-retry in both fetch paths. -/
theorem pypi_c5_primary_403_counterexample :
    fetch_page_run (fun _ => .httpError 403) 3 = ⟨none, 1, 0, 0⟩ ∧
    ¬ 0 < (fetch_page_run (fun _ => .httpError 403) 3).cooldowns ∧
    ¬ 1 < (fetch_page_run (fun _ => .httpError 403) 3).attempts := by
  refine ⟨rfl, ?_, ?_⟩ <;> decide

/-- C6: counterexample.  The `@sleep_and_retry @limits(...)` decorators wrap
all of `fetch_page`, so the rate limiter runs before the cache is consulted.
With the 15-calls/60s window exhausted and a live cache entry for the URL,
the call still blocks 60 time units in the limiter before returning the
cached body, contradicting "no rate-limiter blocking delay can occur on a
cache hit". -/
theorem pypi_c6_cache_hit_blocks_counterexample :
    (fetch_page_cached 15 60 3600 (fun _ => .transportError) "u" 3
        ⟨0, ⟨15, 0⟩, [("u", ⟨"cached body", 10⟩)]⟩).result = some "cached body" ∧
    (fetch_page_cached 15 60 3600 (fun _ => .transportError) "u" 3
        ⟨0, ⟨15, 0⟩, [("u", ⟨"cached body", 10⟩)]⟩).networkCalls = 0 ∧
    (fetch_page_cached 15 60 3600 (fun _ => .transportError) "u" 3
        ⟨0, ⟨15, 0⟩, [("u", ⟨"cached body", 10⟩)]⟩).rateDelay = 60 := by
  refine ⟨rfl, rfl, rfl⟩

/-- C8: confirmed.  `save_progress` writes the serialized checkpoint to
`progress.json.tmp`, then atomically renames it over the canonical path
(`os.replace`); on any failure it removes the temporary file and returns
normally.  So the canonical file afterwards is either the previous content or
the new complete checkpoint (never truncated), a non-ok outcome leaves the
previous checkpoint intact, the temporary file never survives, and the
function never lets an exception escape (the crawl continues). -/
theorem pypi_c8_save_progress_atomic (c : Checkpoint) (fs : FsState)
    (o : SaveOutcome) :
    ((save_progress_fs c fs o).1.canonical = fs.canonical ∨
      (save_progress_fs c fs o).1.canonical = some (.complete c)) ∧
    (save_progress_fs c fs o).1.temp = none ∧
    (o ≠ .ok → (save_progress_fs c fs o).1.canonical = fs.canonical) ∧
    (o = .ok → (save_progress_fs c fs o).1.canonical = some (.complete c)) ∧
    (save_progress_fs c fs o).2 = .ok () := by
  cases o <;> simp [save_progress_fs]

/-- Witness for C8 at a concrete failed save: the previously committed
checkpoint survives a mid-write failure untouched and the temp file is gone. -/
theorem pypi_c8_save_progress_atomic_witness :
    ((save_progress_fs ⟨["x"], 3⟩ ⟨some (.complete ⟨[], 1⟩), none⟩
          .writeFails).1.canonical = some (.complete ⟨[], 1⟩) ∨
      (save_progress_fs ⟨["x"], 3⟩ ⟨some (.complete ⟨[], 1⟩), none⟩
          .writeFails).1.canonical = some (.complete ⟨["x"], 3⟩)) ∧
    (save_progress_fs ⟨["x"], 3⟩ ⟨some (.complete ⟨[], 1⟩), none⟩
        .writeFails).1.temp = none ∧
    (SaveOutcome.writeFails ≠ .ok →
      (save_progress_fs ⟨["x"], 3⟩ ⟨some (.complete ⟨[], 1⟩), none⟩
          .writeFails).1.canonical = some (.complete ⟨[], 1⟩)) ∧
    (SaveOutcome.writeFails = .ok →
      (save_progress_fs ⟨["x"], 3⟩ ⟨some (.complete ⟨[], 1⟩), none⟩
          .writeFails).1.canonical = some (.complete ⟨["x"], 3⟩)) ∧
    (save_progress_fs ⟨["x"], 3⟩ ⟨some (.complete ⟨[], 1⟩), none⟩
        .writeFails).2 = .ok () :=
  pypi_c8_save_progress_atomic ⟨["x"], 3⟩ ⟨some (.complete ⟨[], 1⟩), none⟩
    .writeFails

/-- Helper for C5: against an oracle answering 403 on every attempt, the
GitHub fetch loop uses all remaining attempts, sleeping one cooldown and one
backoff per attempt, and returns `None`. -/
theorem fetchGithubGo_all403 (rem : Nat) :
    ∀ a c b, fetchGithubGo (fun _ => .httpError 403) rem a c b
      = ⟨none, a + rem, c + rem, b + rem⟩ := by
  induction rem with
  | zero => intro a c b; simp [fetchGithubGo]
  | succ rm ih =>
    intro a c b
    simp only [fetchGithubGo]
    norm_num
    rw [ih]
    simp only [FetchRun.mk.injEq, true_and]
    omega

/-- C5: the amended claim.  A 403 leads to a fixed cooldown and a retry that
counts toward `retries` in the enrichment-API path only
(`fetch_github_api`, lines 74-77); the primary-site path (`fetch_page`)
aborts after a single attempt on any HTTP status error, 403 included
(lines 78-80), with no cooldown. -/
theorem pypi_c5_403_cooldown_amended :
    (∀ (oracle : Nat → AttemptOutcome) (retries s : Nat),
        0 < retries → oracle 0 = .httpError s →
        fetch_page_run oracle retries = ⟨none, 1, 0, 0⟩) ∧
    (∀ retries : Nat,
        fetch_github_api_run (fun _ => .httpError 403) retries
          = ⟨none, retries, retries, retries⟩) := by
  constructor
  · intro oracle retries s hr h0
    obtain ⟨rr, rfl⟩ : ∃ rr, retries = rr + 1 := ⟨retries - 1, by omega⟩
    simp [fetch_page_run, fetchPageGo, h0]
  · intro retries
    simpa using fetchGithubGo_all403 retries 0 0 0

/-- Witness for C5's amended theorem: a 500 on the first primary attempt
aborts at once; two all-403 GitHub attempts exhaust both retries with two
cooldowns. -/
theorem pypi_c5_403_cooldown_amended_witness :
    fetch_page_run (fun _ => .httpError 500) 3 = ⟨none, 1, 0, 0⟩ ∧
    fetch_github_api_run (fun _ => .httpError 403) 2 = ⟨none, 2, 2, 2⟩ :=
  ⟨pypi_c5_403_cooldown_amended.1 (fun _ => .httpError 500) 3 500
      (by decide) rfl,
    pypi_c5_403_cooldown_amended.2 2⟩

/-- C6: the amended claim.  A fetch of a URL with a live cache entry returns
the cached body with no network call and no cache mutation — but it does not
bypass the rate limiter: the decorators run first, so within a window the
call counter is consumed (incremented when under quota) and, when the quota
is already exhausted, the call blocks for the remaining window even though
the response then comes from the cache. -/
theorem pypi_c6_cache_hit_amended (calls period cacheExpiry retries : Nat)
    (net : Nat → AttemptOutcome) (url body : String) (st : FetchSt)
    (hc : cacheLookup st.cache st.now url = some body) (hr : 0 < retries) :
    (fetch_page_cached calls period cacheExpiry net url retries st).result
        = some body ∧
    (fetch_page_cached calls period cacheExpiry net url retries st).networkCalls
        = 0 ∧
    (fetch_page_cached calls period cacheExpiry net url retries st).state.cache
        = st.cache ∧
    (st.now - st.rate.windowStart < period → st.rate.count + 1 ≤ calls →
      (fetch_page_cached calls period cacheExpiry net url retries st).state.rate
          = ⟨st.rate.count + 1, st.rate.windowStart⟩ ∧
      (fetch_page_cached calls period cacheExpiry net url retries st).rateDelay
          = 0) ∧
    (st.now - st.rate.windowStart < period → calls < st.rate.count + 1 →
      (fetch_page_cached calls period cacheExpiry net url retries st).rateDelay
          = st.rate.windowStart + period - st.now) := by
  obtain ⟨rr, rfl⟩ : ∃ rr, retries = rr + 1 := ⟨retries - 1, by omega⟩
  simp only [fetch_page_cached, cachedFetchGo]
  rw [show ({ st with rate := (rateAcquire calls period st.now st.rate).1
      } : FetchSt).cache = st.cache from rfl]
  rw [show ({ st with rate := (rateAcquire calls period st.now st.rate).1
      } : FetchSt).now = st.now from rfl]
  rw [hc]
  refine ⟨rfl, rfl, rfl, ?_, ?_⟩
  · intro hwin hquota
    have hcond : ¬ period ≤ st.now - st.rate.windowStart := by omega
    have hcond2 : ¬ calls < st.rate.count + 1 := by omega
    simp [rateAcquire, hcond, hcond2]
  · intro hwin hquota
    have hcond : ¬ period ≤ st.now - st.rate.windowStart := by omega
    simp [rateAcquire, hcond, hquota]

/-- Witness for C6's amended theorem at a concrete under-quota state: the
cached body comes back with zero network calls and the rate counter is
consumed (2 becomes 3). -/
theorem pypi_c6_cache_hit_amended_witness :
    (fetch_page_cached 15 60 3600 (fun _ => .transportError) "u" 3
        ⟨5, ⟨2, 0⟩, [("u", ⟨"b", 9⟩)]⟩).result = some "b" ∧
    (fetch_page_cached 15 60 3600 (fun _ => .transportError) "u" 3
        ⟨5, ⟨2, 0⟩, [("u", ⟨"b", 9⟩)]⟩).networkCalls = 0 ∧
    (fetch_page_cached 15 60 3600 (fun _ => .transportError) "u" 3
        ⟨5, ⟨2, 0⟩, [("u", ⟨"b", 9⟩)]⟩).state.cache = [("u", ⟨"b", 9⟩)] ∧
    ((5 : Nat) - 0 < 60 → 2 + 1 ≤ 15 →
      (fetch_page_cached 15 60 3600 (fun _ => .transportError) "u" 3
          ⟨5, ⟨2, 0⟩, [("u", ⟨"b", 9⟩)]⟩).state.rate = ⟨3, 0⟩ ∧
      (fetch_page_cached 15 60 3600 (fun _ => .transportError) "u" 3
          ⟨5, ⟨2, 0⟩, [("u", ⟨"b", 9⟩)]⟩).rateDelay = 0) ∧
    ((5 : Nat) - 0 < 60 → 15 < 2 + 1 →
      (fetch_page_cached 15 60 3600 (fun _ => .transportError) "u" 3
          ⟨5, ⟨2, 0⟩, [("u", ⟨"b", 9⟩)]⟩).rateDelay = 0 + 60 - 5) :=
  pypi_c6_cache_hit_amended 15 60 3600 3 (fun _ => .transportError) "u" "b"
    ⟨5, ⟨2, 0⟩, [("u", ⟨"b", 9⟩)]⟩ rfl (by decide)

/-- C7: counterexample.  `extract_owner_repo` truncates the repo segment at
the *first* occurrence of `.git`, not only a trailing one: for
`https://github.com/o/a.gitx` the code yields repo `a`, while the claim's
"trailing `.git` stripped" reading yields `a.gitx`. -/
theorem pypi_c7_git_truncation_counterexample :
    extract_owner_repo "https://github.com/o/a.gitx" = some ("o", "a") ∧
    spec_owner_repo "https://github.com/o/a.gitx" = some ("o", "a.gitx") ∧
    extract_owner_repo "https://github.com/o/a.gitx"
        ≠ spec_owner_repo "https://github.com/o/a.gitx" := by
  refine ⟨rfl, rfl, ?_⟩
  intro h
  rw [show extract_owner_repo "https://github.com/o/a.gitx"
      = some ("o", "a") from rfl] at h
  rw [show spec_owner_repo "https://github.com/o/a.gitx"
      = some ("o", "a.gitx") from rfl] at h
  simp at h

/-- C9: confirmed.  Whenever detail extraction returns a `Project`, its ten
enrichment fields are either exactly the all-unset/zero defaults, or exactly
the fields mapped from the single enricher response for the repository URL
recorded in the record.  No mixing of responses is possible: the fields are
assigned in one block (lines 182-198) from one `repo_data`. -/
theorem pypi_c9_enrichment_all_or_nothing (doc : DetailDoc)
    (github : String → Option RepoData) (p : Project) (n : Nat)
    (h : extractProject doc github = .ok (p, n)) :
    enrichOf p = defaultEnrich ∨
      ∃ u d, p.project_github_repo = some u ∧ github u = some d ∧
        enrichOf p = enrichFromData d := by
  unfold extractProject at h
  cases hd : descriptionField doc with
  | error e => rw [hd] at h; exact absurd h (by simp [Bind.bind, Except.bind])
  | ok dsc =>
    cases hm : maintainerField doc with
    | error e =>
      rw [hd, hm] at h
      exact absurd h (by simp [Bind.bind, Except.bind])
    | ok mnt =>
      rw [hd, hm] at h
      simp only [Bind.bind, Except.bind, pure, Except.pure, Except.ok.injEq,
        Prod.mk.injEq] at h
      obtain ⟨hp, -⟩ := h
      subst hp
      cases hg : findGithubRepo doc with
      | none =>
        left
        simp [hg, enrichOf, defaultEnrich]
      | some u =>
        cases hgh : github u with
        | none =>
          left
          simp [hg, hgh, enrichOf, defaultEnrich]
        | some d =>
          right
          exact ⟨u, d, by simp [hg], hgh, by simp [hg, hgh, enrichOf, enrichFromData]⟩

/-- Witness for C9 on the concrete repo-less document `docB`: the resulting
record's enrichment fields are the defaults. -/
theorem pypi_c9_enrichment_all_or_nothing_witness :
    enrichOf projB = defaultEnrich ∨
      ∃ u d, projB.project_github_repo = some u ∧
        (fun _ : String => (none : Option RepoData)) u = some d ∧
        enrichOf projB = enrichFromData d :=
  pypi_c9_enrichment_all_or_nothing docB (fun _ => none) projB 0 rfl

/-- Helper for C10: behaviour of the primary retry loop from any loop state.
Attempts advance by at most the remaining budget; a returned body is exactly
the success body of the last attempt made; a `None` return means no attempt
made in this call succeeded. -/
theorem fetchPageGo_spec (oracle : Nat → AttemptOutcome) (rem : Nat) :
    ∀ a c b,
      a ≤ (fetchPageGo oracle rem a c b).attempts ∧
      (fetchPageGo oracle rem a c b).attempts ≤ a + rem ∧
      (∀ s, (fetchPageGo oracle rem a c b).result = some s →
        oracle ((fetchPageGo oracle rem a c b).attempts - 1) = .success s) ∧
      ((fetchPageGo oracle rem a c b).result = none →
        ∀ i, a ≤ i → i < (fetchPageGo oracle rem a c b).attempts →
          ∀ s, oracle i ≠ .success s) := by
  induction rem with
  | zero =>
    intro a c b
    refine ⟨le_refl a, ?_, ?_, ?_⟩
    · show a ≤ a + 0
      omega
    · intro s hs
      exact Option.noConfusion hs
    · intro _ i h1 h2
      have h2a : i < a := h2
      omega
  | succ rm ih =>
    intro a c b
    simp only [fetchPageGo]
    cases ho : oracle a with
    | success s =>
      refine ⟨Nat.le_succ a, ?_, ?_, ?_⟩
      · show a + 1 ≤ a + (rm + 1)
        omega
      · intro s2 hs2
        obtain rfl := Option.some.inj (hs2 : some s = some s2)
        show oracle (a + 1 - 1) = .success s
        rw [Nat.add_sub_cancel]
        exact ho
      · intro h
        exact Option.noConfusion (h : (some s : Option String) = none)
    | httpError st =>
      refine ⟨Nat.le_succ a, ?_, ?_, ?_⟩
      · show a + 1 ≤ a + (rm + 1)
        omega
      · intro s hs
        exact Option.noConfusion hs
      · intro _ i h1 h2 s
        have h2a : i < a + 1 := h2
        have hia : i = a := by omega
        subst hia
        rw [ho]
        simp
    | transportError =>
      refine ⟨Nat.le_succ a, ?_, ?_, ?_⟩
      · show a + 1 ≤ a + (rm + 1)
        omega
      · intro s hs
        exact Option.noConfusion hs
      · intro _ i h1 h2 s
        have h2a : i < a + 1 := h2
        have hia : i = a := by omega
        subst hia
        rw [ho]
        simp
    | timeout =>
      obtain ⟨ih1, ih2, ih3, ih4⟩ := ih (a + 1) c (b + 1)
      refine ⟨?_, ?_, ih3, ?_⟩
      · show a ≤ (fetchPageGo oracle rm (a + 1) c (b + 1)).attempts
        omega
      · show (fetchPageGo oracle rm (a + 1) c (b + 1)).attempts ≤ a + (rm + 1)
        omega
      · intro hn i h1 h2 s
        have hn2 : (fetchPageGo oracle rm (a + 1) c (b + 1)).result = none := hn
        have h2a : i < (fetchPageGo oracle rm (a + 1) c (b + 1)).attempts := h2
        rcases Nat.eq_or_lt_of_le h1 with heq | hlt
        · subst heq
          rw [ho]
          simp
        · exact ih4 hn2 i hlt h2a s

/-- Helper for C10: the same loop facts for the GitHub retry loop, whose
extra 404/403/other-status branches never return a body either. -/
theorem fetchGithubGo_spec (oracle : Nat → AttemptOutcome) (rem : Nat) :
    ∀ a c b,
      a ≤ (fetchGithubGo oracle rem a c b).attempts ∧
      (fetchGithubGo oracle rem a c b).attempts ≤ a + rem ∧
      (∀ s, (fetchGithubGo oracle rem a c b).result = some s →
        oracle ((fetchGithubGo oracle rem a c b).attempts - 1) = .success s) ∧
      ((fetchGithubGo oracle rem a c b).result = none →
        ∀ i, a ≤ i → i < (fetchGithubGo oracle rem a c b).attempts →
          ∀ s, oracle i ≠ .success s) := by
  induction rem with
  | zero =>
    intro a c b
    refine ⟨le_refl a, ?_, ?_, ?_⟩
    · show a ≤ a + 0
      omega
    · intro s hs
      exact Option.noConfusion hs
    · intro _ i h1 h2
      have h2a : i < a := h2
      omega
  | succ rm ih =>
    intro a c b
    simp only [fetchGithubGo]
    cases ho : oracle a with
    | success s =>
      refine ⟨Nat.le_succ a, ?_, ?_, ?_⟩
      · show a + 1 ≤ a + (rm + 1)
        omega
      · intro s2 hs2
        obtain rfl := Option.some.inj (hs2 : some s = some s2)
        show oracle (a + 1 - 1) = .success s
        rw [Nat.add_sub_cancel]
        exact ho
      · intro h
        exact Option.noConfusion (h : (some s : Option String) = none)
    | httpError st =>
      by_cases h404 : st = 404
      · subst h404
        refine ⟨Nat.le_succ a, ?_, ?_, ?_⟩
        · show a + 1 ≤ a + (rm + 1)
          omega
        · intro s hs
          exact Option.noConfusion hs
        · intro _ i h1 h2 s
          have h2a : i < a + 1 := h2
          have hia : i = a := by omega
          subst hia
          rw [ho]
          simp
      · by_cases h403 : st = 403
        · subst h403
          obtain ⟨ih1, ih2, ih3, ih4⟩ := ih (a + 1) (c + 1) (b + 1)
          have hred : (match AttemptOutcome.httpError 403 with
              | .success b2 => (⟨some b2, a + 1, c, b⟩ : FetchRun)
              | .httpError status =>
                if status = 404 then ⟨none, a + 1, c, b⟩
                else if status = 403 then
                  fetchGithubGo oracle rm (a + 1) (c + 1) (b + 1)
                else fetchGithubGo oracle rm (a + 1) c (b + 1)
              | .transportError => ⟨none, a + 1, c, b⟩
              | .timeout => fetchGithubGo oracle rm (a + 1) c (b + 1))
              = fetchGithubGo oracle rm (a + 1) (c + 1) (b + 1) := rfl
          rw [hred]
          refine ⟨by omega, by omega, ih3, ?_⟩
          intro hn i h1 h2 s
          rcases Nat.eq_or_lt_of_le h1 with heq | hlt
          · subst heq
            rw [ho]
            simp
          · exact ih4 hn i hlt h2 s
        · obtain ⟨ih1, ih2, ih3, ih4⟩ := ih (a + 1) c (b + 1)
          have hred : (match AttemptOutcome.httpError st with
              | .success b2 => (⟨some b2, a + 1, c, b⟩ : FetchRun)
              | .httpError status =>
                if status = 404 then ⟨none, a + 1, c, b⟩
                else if status = 403 then
                  fetchGithubGo oracle rm (a + 1) (c + 1) (b + 1)
                else fetchGithubGo oracle rm (a + 1) c (b + 1)
              | .transportError => ⟨none, a + 1, c, b⟩
              | .timeout => fetchGithubGo oracle rm (a + 1) c (b + 1))
              = fetchGithubGo oracle rm (a + 1) c (b + 1) := by
            simp only [if_neg h404, if_neg h403]
          rw [hred]
          refine ⟨by omega, by omega, ih3, ?_⟩
          intro hn i h1 h2 s
          rcases Nat.eq_or_lt_of_le h1 with heq | hlt
          · subst heq
            rw [ho]
            simp
          · exact ih4 hn i hlt h2 s
    | transportError =>
      refine ⟨Nat.le_succ a, ?_, ?_, ?_⟩
      · show a + 1 ≤ a + (rm + 1)
        omega
      · intro s hs
        exact Option.noConfusion hs
      · intro _ i h1 h2 s
        have h2a : i < a + 1 := h2
        have hia : i = a := by omega
        subst hia
        rw [ho]
        simp
    | timeout =>
      obtain ⟨ih1, ih2, ih3, ih4⟩ := ih (a + 1) c (b + 1)
      refine ⟨?_, ?_, ih3, ?_⟩
      · show a ≤ (fetchGithubGo oracle rm (a + 1) c (b + 1)).attempts
        omega
      · show (fetchGithubGo oracle rm (a + 1) c (b + 1)).attempts ≤ a + (rm + 1)
        omega
      · intro hn i h1 h2 s
        have hn2 : (fetchGithubGo oracle rm (a + 1) c (b + 1)).result = none := hn
        have h2a : i < (fetchGithubGo oracle rm (a + 1) c (b + 1)).attempts := h2
        rcases Nat.eq_or_lt_of_le h1 with heq | hlt
        · subst heq
          rw [ho]
          simp
        · exact ih4 hn2 i hlt h2a s

/-- C10: confirmed.  For any sequence of attempt outcomes, both retrying
fetches are total at their interface: they make at most `retries` attempts
and return either a body (the success body of the attempt that succeeded) or
`None` (when no attempt made succeeded); every outcome kind — HTTP status
error, timeout, transport failure — is handled by a matching `except` clause
in the source, so the translation returns a plain `Option` and no such
exception reaches the caller. -/
theorem pypi_c10_fetch_totality (oracle : Nat → AttemptOutcome) (retries : Nat) :
    (fetch_page_run oracle retries).attempts ≤ retries ∧
    (fetch_github_api_run oracle retries).attempts ≤ retries ∧
    (∀ s, (fetch_page_run oracle retries).result = some s →
      oracle ((fetch_page_run oracle retries).attempts - 1) = .success s) ∧
    (∀ s, (fetch_github_api_run oracle retries).result = some s →
      oracle ((fetch_github_api_run oracle retries).attempts - 1) = .success s) ∧
    ((fetch_page_run oracle retries).result = none →
      ∀ i < (fetch_page_run oracle retries).attempts, ∀ s,
        oracle i ≠ .success s) ∧
    ((fetch_github_api_run oracle retries).result = none →
      ∀ i < (fetch_github_api_run oracle retries).attempts, ∀ s,
        oracle i ≠ .success s) := by
  obtain ⟨h1, h2, h3, h4⟩ := fetchPageGo_spec oracle retries 0 0 0
  obtain ⟨g1, g2, g3, g4⟩ := fetchGithubGo_spec oracle retries 0 0 0
  exact ⟨by simpa [fetch_page_run] using h2,
    by simpa [fetch_github_api_run] using g2,
    h3, g3,
    fun hn i hi s => h4 hn i (Nat.zero_le i) hi s,
    fun hn i hi s => g4 hn i (Nat.zero_le i) hi s⟩

/-- Witness for C10 with a concrete oracle (timeout, then success): both
fetches stop within the 3 configured attempts and return the success body of
their final attempt. -/
theorem pypi_c10_fetch_totality_witness :
    (fetch_page_run wOracle 3).attempts ≤ 3 ∧
    (fetch_github_api_run wOracle 3).attempts ≤ 3 ∧
    wOracle ((fetch_page_run wOracle 3).attempts - 1)
        = AttemptOutcome.success "ok" ∧
    wOracle ((fetch_github_api_run wOracle 3).attempts - 1)
        = AttemptOutcome.success "ok" :=
  ⟨(pypi_c10_fetch_totality wOracle 3).1,
    (pypi_c10_fetch_totality wOracle 3).2.1,
    (pypi_c10_fetch_totality wOracle 3).2.2.1 "ok" rfl,
    (pypi_c10_fetch_totality wOracle 3).2.2.2.1 "ok" rfl⟩

/-- Invariant for C3, relative to the loaded checkpoint's visited set `V0`:
every element of `V0` stays in the engine's visited set, and no item for
which a detail fetch was attempted lies in `V0`. -/
abbrev GoodSt (V0 : List String) (st : EngSt) : Prop :=
  (∀ x ∈ V0, x ∈ st.visited) ∧ (∀ x ∈ st.processed, x ∉ V0)

/-- One item step preserves the C3 invariant and the fetched-pages trace. -/
theorem processItem_good (o : Oracles) (V0 : List String) (st : EngSt)
    (item : String) (h : GoodSt V0 st) :
    GoodSt V0 (processItem o st item).1 ∧
    (processItem o st item).1.pagesFetched = st.pagesFetched := by
  by_cases hv : item ∈ st.visited
  · simp only [processItem, if_pos hv]
    exact ⟨h, by trivial⟩
  · have hitem : item ∉ V0 := fun hxV => hv (h.1 item hxV)
    have hB : ∀ x ∈ st.processed ++ [item], x ∉ V0 := by
      intro x hx
      rcases List.mem_append.1 hx with hx2 | hx2
      · exact h.2 x hx2
      · have hxi : x = item := by simpa using hx2
        subst hxi
        exact hitem
    simp only [processItem, if_neg hv]
    split
    · exact ⟨⟨h.1, hB⟩, rfl⟩
    · split
      · exact ⟨⟨h.1, hB⟩, rfl⟩
      · split
        · exact ⟨⟨h.1, hB⟩, rfl⟩
        · refine ⟨⟨?_, hB⟩, rfl⟩
          intro x hx
          exact List.mem_append.2 (Or.inl (h.1 x hx))

/-- The inner item loop preserves the C3 invariant and the fetched-pages
trace. -/
theorem runItems_good (o : Oracles) (V0 : List String) :
    ∀ (items : List String) (st : EngSt), GoodSt V0 st →
      GoodSt V0 (runItems o items st).1 ∧
      (runItems o items st).1.pagesFetched = st.pagesFetched := by
  intro items
  induction items with
  | nil => intro st h; exact ⟨h, rfl⟩
  | cons item rest ih =>
    intro st h
    obtain ⟨hg, hpg⟩ := processItem_good o V0 st item h
    simp only [runItems]
    cases hpi : processItem o st item with
    | mk st1 err =>
      rw [hpi] at hg hpg
      cases err with
      | some e => exact ⟨hg, hpg⟩
      | none =>
        obtain ⟨hg2, hpg2⟩ := ih st1 hg
        exact ⟨hg2, hpg2.trans hpg⟩

/-- The page loop preserves the C3 invariant and only appends to the
fetched-pages trace. -/
theorem runPages_good (o : Oracles) (V0 : List String) :
    ∀ (fuel page : Nat) (st : EngSt), GoodSt V0 st →
      GoodSt V0 (runPages o fuel page st).1 ∧
      st.pagesFetched <+: (runPages o fuel page st).1.pagesFetched := by
  intro fuel
  induction fuel with
  | zero => intro page st h; exact ⟨h, List.prefix_rfl⟩
  | succ f ih =>
    intro page st h
    have h1 : GoodSt V0 ({ st with pagesFetched := st.pagesFetched ++ [page] }) :=
      ⟨h.1, h.2⟩
    by_cases hp : (scrape_search_page o page).isEmpty = true
    · simp only [runPages, if_pos hp]
      exact ⟨h1, List.prefix_append _ _⟩
    · simp only [runPages, if_neg hp]
      obtain ⟨hg, hpg⟩ := runItems_good o V0 (scrape_search_page o page)
        ({ st with pagesFetched := st.pagesFetched ++ [page] }) h1
      cases hri : runItems o (scrape_search_page o page)
          ({ st with pagesFetched := st.pagesFetched ++ [page] }) with
      | mk st2 err =>
        rw [hri] at hg hpg
        cases err with
        | some e =>
          refine ⟨hg, ?_⟩
          rw [hpg]
          exact List.prefix_append _ _
        | none =>
          obtain ⟨hg3, hpg3⟩ := ih (page + 1)
            ({ st2 with last_page := page, saved := some ⟨st2.visited, page⟩ })
            ⟨hg.1, hg.2⟩
          refine ⟨hg3, List.IsPrefix.trans ?_ hpg3⟩
          show st.pagesFetched <+: st2.pagesFetched
          rw [hpg]
          exact List.prefix_append _ _

/-- With positive fuel and an empty trace so far, the first listing page the
engine fetches is exactly the `page` argument it starts from. -/
theorem runPages_first_page (o : Oracles) (f page : Nat) (st : EngSt)
    (hempty : st.pagesFetched = []) :
    (runPages o (f + 1) page st).1.pagesFetched.head? = some page := by
  have hall : ∀ s : EngSt, GoodSt [] s := fun s => ⟨by simp, by simp⟩
  by_cases hp : (scrape_search_page o page).isEmpty = true
  · simp only [runPages, if_pos hp]
    show (st.pagesFetched ++ [page]).head? = some page
    rw [hempty]
    rfl
  · simp only [runPages, if_neg hp]
    cases hri : runItems o (scrape_search_page o page)
        ({ st with pagesFetched := st.pagesFetched ++ [page] }) with
    | mk st2 err =>
      have hpg := (runItems_good o [] (scrape_search_page o page)
        ({ st with pagesFetched := st.pagesFetched ++ [page] }) (hall _)).2
      rw [hri] at hpg
      cases err with
      | some e =>
        show st2.pagesFetched.head? = some page
        rw [hpg, hempty]
        rfl
      | none =>
        obtain ⟨t, ht⟩ := (runPages_good o [] f (page + 1)
          ({ st2 with last_page := page, saved := some ⟨st2.visited, page⟩ })
          (hall _)).2
        rw [← ht]
        show (st2.pagesFetched ++ t).head? = some page
        rw [hpg, hempty]
        rfl

/-- C3: the amended claim.  After loading any checkpoint, a run (of any
length, crashed or not) attempts a detail fetch for no identifier in the
checkpoint's visited set — the `if project in self.visited_projects` guard —
but crawling begins at the loaded `last_page` itself (`page = self.last_page`,
line 223), re-fetching the last completed listing page and skipping its
already-visited items, rather than at `last_page + 1`. -/
theorem pypi_c3_resume_amended (o : Oracles) (fuel : Nat) (pf : ProgressFile) :
    (∀ x ∈ (scrape_all_projects o fuel pf).1.processed,
        x ∉ (load_progress pf).1) ∧
    (0 < fuel →
      (scrape_all_projects o fuel pf).1.pagesFetched.head?
        = some (load_progress pf).2) := by
  constructor
  · have h0 : GoodSt (load_progress pf).1 (initState pf) := by
      refine ⟨fun x hx => hx, ?_⟩
      intro x hx
      simp [initState] at hx
    exact (runPages_good o (load_progress pf).1 fuel (initState pf).last_page
      (initState pf) h0).1.2
  · intro hf
    obtain ⟨f, rfl⟩ : ∃ f, fuel = f + 1 := ⟨fuel - 1, by omega⟩
    exact runPages_first_page o f (initState pf).last_page (initState pf) rfl

/-- Witness for C3's amended theorem: resuming `c2Oracles` from the
checkpoint `{visited: [/project/b/], last_page: 1}`, the one item actually
detail-fetched (`/project/a/`) is not in the checkpoint's visited set, and
the first page fetched is the loaded `last_page` 1. -/
theorem pypi_c3_resume_amended_witness :
    "/project/a/" ∉ (load_progress (.good ⟨["/project/b/"], 1⟩)).1 ∧
    (scrape_all_projects c2Oracles 2
        (.good ⟨["/project/b/"], 1⟩)).1.pagesFetched.head?
      = some (load_progress (.good ⟨["/project/b/"], 1⟩)).2 :=
  ⟨(pypi_c3_resume_amended c2Oracles 2 (.good ⟨["/project/b/"], 1⟩)).1
      "/project/a/"
      (by rw [show (scrape_all_projects c2Oracles 2
          (.good ⟨["/project/b/"], 1⟩)).1.processed
            = ["/project/a/"] from rfl]; simp),
    (pypi_c3_resume_amended c2Oracles 2 (.good ⟨["/project/b/"], 1⟩)).2
      (by decide)⟩

/-- Splitting at a leading separator yields a leading empty piece. -/
theorem psplitAux_cons_sep (c : Char) (xs : List Char) :
    psplitAux c (c :: xs) = ([], (psplitAux c xs).1 :: (psplitAux c xs).2) := by
  simp [psplitAux]

/-- Splitting at a leading non-separator prepends it to the first piece. -/
theorem psplitAux_cons_ne (c x : Char) (xs : List Char) (h : ¬ x = c) :
    psplitAux c (x :: xs) = (x :: (psplitAux c xs).1, (psplitAux c xs).2) := by
  simp [psplitAux, h]

/-- Appending a separator appends one empty piece to the split. -/
theorem psplitAux_append_sep (c : Char) :
    ∀ l : List Char, psplitAux c (l ++ [c])
      = ((psplitAux c l).1, (psplitAux c l).2 ++ [[]]) := by
  intro l
  induction l with
  | nil => simp [psplitAux]
  | cons x xs ih =>
    by_cases hx : x = c
    · subst hx
      rw [List.cons_append, psplitAux_cons_sep, psplitAux_cons_sep, ih]
      simp
    · rw [List.cons_append, psplitAux_cons_ne c x _ hx,
        psplitAux_cons_ne c x xs hx, ih]

/-- The nonempty-piece filter ignores a leading separator. -/
theorem filter_psplit_cons_sep (c : Char) (xs : List Char) :
    (psplit c (c :: xs)).filter (fun s => !s.isEmpty)
      = (psplit c xs).filter (fun s => !s.isEmpty) := by
  simp [psplit, psplitAux_cons_sep]

/-- The nonempty-piece filter ignores leading separators (left strip). -/
theorem filter_psplit_lstrip (c : Char) :
    ∀ l : List Char, (psplit c (lstripC c l)).filter (fun s => !s.isEmpty)
      = (psplit c l).filter (fun s => !s.isEmpty) := by
  intro l
  induction l with
  | nil => rfl
  | cons x xs ih =>
    by_cases hx : x = c
    · subst hx
      have h1 : lstripC x (x :: xs) = lstripC x xs := by
        simp [lstripC, List.dropWhile_cons]
      rw [h1, ih, filter_psplit_cons_sep]
    · have h1 : lstripC c (x :: xs) = x :: xs := by
        simp [lstripC, List.dropWhile_cons, hx]
      rw [h1]

/-- The nonempty-piece filter ignores an appended separator. -/
theorem filter_psplit_append_sep (c : Char) (l : List Char) :
    (psplit c (l ++ [c])).filter (fun s => !s.isEmpty)
      = (psplit c l).filter (fun s => !s.isEmpty) := by
  rw [psplit, psplit, psplitAux_append_sep]
  simp [List.filter_cons, List.filter_append]

/-- The nonempty-piece filter ignores appended separator runs. -/
theorem filter_psplit_append_rep (c : Char) :
    ∀ (k : Nat) (l : List Char),
      (psplit c (l ++ List.replicate k c)).filter (fun s => !s.isEmpty)
        = (psplit c l).filter (fun s => !s.isEmpty) := by
  intro k
  induction k with
  | zero => intro l; simp
  | succ n ih =>
    intro l
    have : l ++ List.replicate (n + 1) c = (l ++ [c]) ++ List.replicate n c := by
      simp [List.replicate_succ]
    rw [this, ih, filter_psplit_append_sep]

/-- Right-stripping removes a (possibly empty) run of trailing separators. -/
theorem rstripC_decomp (c : Char) (l : List Char) :
    ∃ k, l = rstripC c l ++ List.replicate k c := by
  refine ⟨(l.reverse.takeWhile (fun x => x == c)).length, ?_⟩
  have hsplit := List.takeWhile_append_dropWhile (fun x => x == c) l.reverse
  have hrep : l.reverse.takeWhile (fun x => x == c)
      = List.replicate (l.reverse.takeWhile (fun x => x == c)).length c := by
    apply List.eq_replicate_of_mem
    intro b hb
    have := List.mem_takeWhile_imp hb
    simpa using this
  calc l = l.reverse.reverse := by rw [List.reverse_reverse]
    _ = (l.reverse.takeWhile (fun x => x == c)
          ++ l.reverse.dropWhile (fun x => x == c)).reverse := by rw [hsplit]
    _ = (l.reverse.dropWhile (fun x => x == c)).reverse
          ++ (l.reverse.takeWhile (fun x => x == c)).reverse := by
        rw [List.reverse_append]
    _ = rstripC c l ++ List.replicate
          (l.reverse.takeWhile (fun x => x == c)).length c := by
        rw [rstripC]
        congr 1
        rw [hrep, List.reverse_replicate, List.length_replicate]

/-- The nonempty-piece filter is invariant under the full two-sided strip:
the spec's "non-empty path segments" can be read off the stripped path. -/
theorem filter_psplit_pstrip (c : Char) (l : List Char) :
    (psplit c (pstrip c l)).filter (fun s => !s.isEmpty)
      = (psplit c l).filter (fun s => !s.isEmpty) := by
  obtain ⟨k, hk⟩ := rstripC_decomp c (lstripC c l)
  calc (psplit c (pstrip c l)).filter (fun s => !s.isEmpty)
      = (psplit c (rstripC c (lstripC c l))).filter (fun s => !s.isEmpty) := rfl
    _ = (psplit c (rstripC c (lstripC c l) ++ List.replicate k c)).filter
          (fun s => !s.isEmpty) := by rw [filter_psplit_append_rep]
    _ = (psplit c (lstripC c l)).filter (fun s => !s.isEmpty) := by rw [← hk]
    _ = (psplit c l).filter (fun s => !s.isEmpty) := filter_psplit_lstrip c l

/-- The head surviving a `dropWhile` fails the dropped predicate. -/
theorem head?_dropWhile_not (p : Char → Bool) :
    ∀ (l : List Char) (a : Char), (l.dropWhile p).head? = some a → p a = false := by
  intro l
  induction l with
  | nil => intro a h; simp at h
  | cons x xs ih =>
    intro a h
    by_cases hx : p x
    · rw [List.dropWhile_cons_of_pos hx] at h
      exact ih a h
    · rw [List.dropWhile_cons_of_neg hx] at h
      simp only [List.head?_cons, Option.some.injEq] at h
      subst h
      simpa using hx

/-- A stripped path neither starts nor ends with the strip character. -/
theorem pstrip_head?_getLast?_ne (c : Char) (l : List Char) :
    (pstrip c l).head? ≠ some c ∧ (pstrip c l).getLast? ≠ some c := by
  constructor
  · intro h
    obtain ⟨k, hk⟩ := rstripC_decomp c (lstripC c l)
    have hpre : pstrip c l <+: lstripC c l := ⟨List.replicate k c, hk.symm⟩
    obtain ⟨t, ht⟩ := hpre
    have hne : pstrip c l ≠ [] := by
      intro hnil
      rw [hnil] at h
      simp at h
    have hm : (lstripC c l).head? = some c := by
      rw [← ht]
      cases hps : pstrip c l with
      | nil => exact absurd hps hne
      | cons y ys =>
        rw [hps] at h
        simp only [List.head?_cons, Option.some.injEq] at h
        subst h
        simp
    have := head?_dropWhile_not (fun x => x == c) l c hm
    simp at this
  · intro h
    have hrev : ((lstripC c l).reverse.dropWhile (fun x => x == c)).reverse.getLast?
        = some c := h
    rw [List.getLast?_reverse] at hrev
    have := head?_dropWhile_not (fun x => x == c) (lstripC c l).reverse c hrev
    simp at this

/-- A non-empty list not starting with the separator has a non-empty first
split piece. -/
theorem psplitAux_fst_ne_nil (c : Char) (l : List Char) (hne : l ≠ [])
    (hh : l.head? ≠ some c) : (psplitAux c l).1 ≠ [] := by
  cases l with
  | nil => exact absurd rfl hne
  | cons x xs =>
    have hx : ¬ x = c := by
      intro hx
      exact hh (by simp [hx])
    rw [psplitAux_cons_ne c x xs hx]
    simp

/-- A non-empty list not ending with the separator has a non-empty last split
piece. -/
theorem psplit_getLast?_ne_nil (c : Char) :
    ∀ l : List Char, l ≠ [] → l.getLast? ≠ some c →
      (psplit c l).getLast? ≠ some [] := by
  intro l
  induction l with
  | nil => intro h; exact absurd rfl h
  | cons x xs ih =>
    intro _ hlast
    cases xs with
    | nil =>
      have hx : ¬ x = c := by
        intro hh
        exact hlast (by simp [hh])
      rw [show psplit c [x] = [[x]] from by
        simp [psplit, psplitAux, hx]]
      simp
    | cons y ys =>
      have hlast2 : (y :: ys).getLast? ≠ some c := by
        rwa [List.getLast?_cons_cons] at hlast
      have ih2 := ih (by simp) hlast2
      by_cases hx : x = c
      · subst hx
        have hshape : psplit x (x :: y :: ys)
            = [] :: (psplitAux x (y :: ys)).1 :: (psplitAux x (y :: ys)).2 := by
          simp [psplit, psplitAux_cons_sep]
        rw [hshape, List.getLast?_cons_cons]
        exact ih2
      · have hshape : psplit c (x :: y :: ys)
            = (x :: (psplitAux c (y :: ys)).1) :: (psplitAux c (y :: ys)).2 := by
          simp [psplit, psplitAux_cons_ne c x _ hx]
        rw [hshape]
        cases hB : (psplitAux c (y :: ys)).2 with
        | nil => simp
        | cons q qs =>
          rw [List.getLast?_cons_cons]
          have hq : (psplit c (y :: ys)).getLast? = (q :: qs).getLast? := by
            rw [show psplit c (y :: ys)
                = (psplitAux c (y :: ys)).1 :: (psplitAux c (y :: ys)).2 from rfl,
              hB, List.getLast?_cons_cons]
          rw [← hq]
          exact ih2

/-- A split whose first and last pieces are non-empty and which has at least
two pieces contributes at least two non-empty pieces. -/
theorem two_le_filter_of_ends (p0 s : List Char) (rest : List (List Char))
    (h0 : p0 ≠ []) (hlast : (p0 :: s :: rest).getLast? ≠ some []) :
    2 ≤ ((p0 :: s :: rest).filter (fun x => !x.isEmpty)).length := by
  have hp0 : (!p0.isEmpty) = true := by
    cases p0 with
    | nil => exact absurd rfl h0
    | cons a as => simp
  have hcons : (p0 :: s :: rest).filter (fun x => !x.isEmpty)
      = p0 :: (s :: rest).filter (fun x => !x.isEmpty) := by
    rw [List.filter_cons, hp0]
    simp
  rw [hcons]
  have hT : (s :: rest) ≠ [] := by simp
  have hget := List.getLast?_eq_getLast (s :: rest) hT
  have hq : (s :: rest).getLast hT ≠ [] := by
    intro hq
    apply hlast
    rw [List.getLast?_cons_cons, hget, hq]
  have hmem : (s :: rest).getLast hT ∈ (s :: rest).filter (fun x => !x.isEmpty) := by
    rw [List.mem_filter]
    refine ⟨List.getLast_mem hT, ?_⟩
    cases hc : (s :: rest).getLast hT with
    | nil => exact absurd hc hq
    | cons a as => simp
  have : 1 ≤ ((s :: rest).filter (fun x => !x.isEmpty)).length :=
    List.length_pos.2 (List.ne_nil_of_mem hmem)
  simp only [List.length_cons]
  omega

/-- A path starting with the separator contributes an empty split piece. -/
theorem mem_nil_psplit_head (c : Char) (path : List Char)
    (h : path.head? = some c) : [] ∈ psplit c path := by
  cases path with
  | nil => simp at h
  | cons x xs =>
    have hx : x = c := by simpa using h
    subst hx
    rw [show psplit x (x :: xs)
        = [] :: (psplitAux x xs).1 :: (psplitAux x xs).2 from by
      simp [psplit, psplitAux_cons_sep]]
    exact List.mem_cons_self _ _

/-- A path ending with the separator contributes an empty split piece. -/
theorem mem_nil_psplit_last (c : Char) (path : List Char)
    (h : path.getLast? = some c) : [] ∈ psplit c path := by
  have hne : path ≠ [] := by
    intro hn
    rw [hn] at h
    simp at h
  have hdec := List.dropLast_append_getLast hne
  have hlast : path.getLast hne = c := by
    have := List.getLast?_eq_getLast path hne
    rw [this] at h
    simpa using h
  rw [← hdec, hlast, psplit, psplitAux_append_sep]
  simp

/-- A path with no empty split piece is unchanged by the two-sided strip. -/
theorem pstrip_eq_self_of_no_nil (c : Char) (path : List Char)
    (h : [] ∉ psplit c path) : pstrip c path = path := by
  have hh : path.head? ≠ some c := fun hc => h (mem_nil_psplit_head c path hc)
  have hl : path.getLast? ≠ some c := fun hc => h (mem_nil_psplit_last c path hc)
  have h1 : lstripC c path = path := by
    cases path with
    | nil => rfl
    | cons x xs =>
      have hx : ¬ x = c := by
        intro hx
        exact hh (by simp [hx])
      simp [lstripC, List.dropWhile_cons, hx]
  have h2 : rstripC c path = path := by
    have hrev : path.reverse.dropWhile (fun x => x == c) = path.reverse := by
      cases hr : path.reverse with
      | nil => rfl
      | cons y ys =>
        have hy : path.getLast? = some y := by
          rw [← List.head?_reverse, hr]
          rfl
        have hyc : ¬ y = c := by
          intro hyc
          rw [hyc] at hy
          exact hl hy
        simp [List.dropWhile_cons, hyc]
    rw [rstripC, hrev, List.reverse_reverse]
  rw [pstrip, h1, h2]

/-- `takeUntilSub` really is the cut at the first occurrence of `sep`. -/
theorem takeUntilSub_spec (sep : List Char) :
    ∀ l : List Char, FirstCutAt sep l (takeUntilSub sep l) := by
  intro l
  induction l with
  | nil =>
    refine ⟨List.prefix_rfl, ?_, Or.inr rfl⟩
    intro i hi
    have h0 : i < 0 := hi
    omega
  | cons x xs ih =>
    by_cases hp : sep.isPrefixOf (x :: xs) = true
    · have heq : takeUntilSub sep (x :: xs) = [] := by
        simp [takeUntilSub, hp]
      rw [heq]
      refine ⟨List.nil_prefix, ?_, Or.inl ?_⟩
      · intro i hi
        have h0 : i < 0 := hi
        omega
      · show sep <+: x :: xs
        exact List.isPrefixOf_iff_prefix.1 hp
    · have heq : takeUntilSub sep (x :: xs) = x :: takeUntilSub sep xs := by
        simp [takeUntilSub, hp]
      rw [heq]
      obtain ⟨ih1, ih2, ih3⟩ := ih
      refine ⟨?_, ?_, ?_⟩
      · obtain ⟨u, hu⟩ := ih1
        exact ⟨u, by rw [List.cons_append, hu]⟩
      · intro i hi
        cases i with
        | zero =>
          rw [List.drop_zero]
          intro hcon
          exact hp (List.isPrefixOf_iff_prefix.2 hcon)
        | succ j =>
          have hj : j < (takeUntilSub sep xs).length := by
            simp only [List.length_cons] at hi
            omega
          rw [List.drop_succ_cons]
          exact ih2 j hj
      · rcases ih3 with h3 | h3
        · left
          show sep <+: List.drop (takeUntilSub sep xs).length xs
          exact h3
        · right
          rw [h3]

/-- C7: the amended claim.  `extract_owner_repo` returns no result exactly
when the URL path has fewer than two non-empty segments.  Otherwise the owner
is the first non-empty path segment, and the repo comes from the second entry
of the `/`-split of the path stripped of leading/trailing slashes — which is
the second non-empty segment whenever the path has no empty segment (no
consecutive slashes), but can be an empty string otherwise — truncated at the
*first* occurrence of `.git` anywhere, not only a trailing one. -/
theorem pypi_c7_owner_repo_amended (path : List Char) :
    (extract_owner_repo_path path = none ↔ (nonemptySegs path).length < 2) ∧
    (∀ o r, extract_owner_repo_path path = some (o, r) →
      (nonemptySegs path).head? = some o ∧
      ∃ s rest, psplit '/' (pstrip '/' path) = o :: s :: rest ∧
        FirstCutAt gitSep s r ∧
        (([] : List Char) ∉ psplit '/' path →
          (nonemptySegs path)[1]? = some s)) := by
  have hfilt : (psplit '/' (pstrip '/' path)).filter (fun x => !x.isEmpty)
      = nonemptySegs path := filter_psplit_pstrip '/' path
  obtain ⟨hh, hl⟩ := pstrip_head?_getLast?_ne '/' path
  cases hB : (psplitAux '/' (pstrip '/' path)).2 with
  | nil =>
    have hex : extract_owner_repo_path path = none := by
      simp only [extract_owner_repo_path, psplit, hB]
    have hle : (nonemptySegs path).length ≤ 1 := by
      rw [← hfilt, psplit, hB]
      have hlf := List.length_filter_le (fun x : List Char => !x.isEmpty)
        [(psplitAux '/' (pstrip '/' path)).1]
      simpa using hlf
    refine ⟨⟨fun _ => by omega, fun _ => hex⟩, ?_⟩
    intro o r h
    rw [hex] at h
    exact absurd h (by simp)
  | cons s restParts =>
    have hparts : psplit '/' (pstrip '/' path)
        = (psplitAux '/' (pstrip '/' path)).1 :: s :: restParts := by
      rw [psplit, hB]
    have hex : extract_owner_repo_path path
        = some ((psplitAux '/' (pstrip '/' path)).1, takeUntilSub gitSep s) := by
      simp only [extract_owner_repo_path]
      rw [hparts]
    have htne : pstrip '/' path ≠ [] := by
      intro h0
      rw [h0] at hB
      simp [psplitAux] at hB
    have hA : (psplitAux '/' (pstrip '/' path)).1 ≠ [] :=
      psplitAux_fst_ne_nil '/' (pstrip '/' path) htne hh
    have hlastne := psplit_getLast?_ne_nil '/' (pstrip '/' path) htne hl
    rw [hparts] at hlastne
    have hcount : 2 ≤ (nonemptySegs path).length := by
      rw [← hfilt, hparts]
      exact two_le_filter_of_ends _ s restParts hA hlastne
    refine ⟨⟨fun hnone => ?_, fun hlt => by omega⟩, ?_⟩
    · rw [hex] at hnone
      exact absurd hnone (by simp)
    · intro o r h
      rw [hex] at h
      simp only [Option.some.injEq, Prod.mk.injEq] at h
      obtain ⟨rfl, rfl⟩ := h
      have hp0 : (!(psplitAux '/' (pstrip '/' path)).1.isEmpty) = true := by
        cases hc : (psplitAux '/' (pstrip '/' path)).1 with
        | nil => exact absurd hc hA
        | cons a as => simp
      refine ⟨?_, s, restParts, hparts, takeUntilSub_spec gitSep s, ?_⟩
      · rw [← hfilt, hparts]
        have hcons : ((psplitAux '/' (pstrip '/' path)).1 :: s :: restParts).filter
            (fun x => !x.isEmpty)
            = (psplitAux '/' (pstrip '/' path)).1
                :: (s :: restParts).filter (fun x => !x.isEmpty) := by
          rw [List.filter_cons, hp0]
          simp
        rw [hcons]
        rfl
      · intro hnonil
        have hstrip : pstrip '/' path = path :=
          pstrip_eq_self_of_no_nil '/' path hnonil
        have hall : ∀ x ∈ psplit '/' path, (fun x : List Char => !x.isEmpty) x
            = true := by
          intro x hx
          cases hcx : x with
          | nil => exact absurd (hcx ▸ hx) hnonil
          | cons a as => simp
        have hfe : (psplit '/' path).filter (fun x => !x.isEmpty)
            = psplit '/' path := List.filter_eq_self.2 hall
        have hne2 : nonemptySegs path
            = (psplitAux '/' (pstrip '/' path)).1 :: s :: restParts := by
          show (psplit '/' path).filter (fun x => !x.isEmpty) = _
          rw [hfe, show psplit '/' path = psplit '/' (pstrip '/' path) from by
            rw [hstrip], hparts]
        rw [hne2]
        simp

/-- Witness for C7's amended theorem at the path `/o/a`: extraction does not
return `none` (two non-empty segments), the owner is the first non-empty
segment `o`, and the repo segment `a` is cut at the first (absent) `.git`. -/
theorem pypi_c7_owner_repo_amended_witness :
    (extract_owner_repo_path ("/o/a".data) = none
      ↔ (nonemptySegs ("/o/a".data)).length < 2) ∧
    (nonemptySegs ("/o/a".data)).head? = some ("o".data) ∧
    FirstCutAt gitSep ("a".data) ("a".data) ∧
    (([] : List Char) ∉ psplit '/' ("/o/a".data) →
      (nonemptySegs ("/o/a".data))[1]? = some ("a".data)) := by
  have h := pypi_c7_owner_repo_amended ("/o/a".data)
  have h2 := h.2 ("o".data) ("a".data) rfl
  obtain ⟨hhead, s, rest, hparts, hcut, himp⟩ := h2
  have hs : s = "a".data := by
    have : psplit '/' (pstrip '/' ("/o/a".data))
        = "o".data :: "a".data :: [] := rfl
    rw [this] at hparts
    exact (List.cons.inj (List.cons.inj hparts).2).1.symm
  subst hs
  exact ⟨h.1, hhead, hcut, himp⟩

end PyPi
